import Mathlib

/-!
Shallow embedding of the fNIRS multi-subject loading script.

The script scans a fixed relative directory for `*.snirf` files, reverse-sorts
the file list, assigns zero-padded subject labels, and for each (subject, file)
pair reads the recording, derives optical density `od = -log(amp / amp.mean("time"))`,
builds a per-subject labelled dataset with variables `amp`, `od`, `geo`, `conc`
(the latter via the external Beer-Lambert routine), and stores it in a dictionary
keyed by subject label.

Modelling choices:
* scalars are rationals; the elementwise `np.log` is an uninterpreted function
  parameter `logf : ℚ → ℚ` (the script never computes logarithms itself);
* the filesystem is a list of path strings; path ordering is the lexicographic
  string order;
* the external library calls `cedalion.io.read_snirf` and
  `cedalion.nirs.beer_lambert` are uninterpreted fallible function parameters;
* exceptions are `Except`-style errors; the externally visible effects of the
  script (directory scan, console print, file read) are recorded in a trace,
  whose event vocabulary also contains file writes and network accesses so that
  their absence is expressible.
-/

namespace FnirsScript

/-- A labelled 3-d array over dims (channel, wavelength, time), as produced by
`elements[0].data[0]`.  Wavelength coordinate values are kept because the script
reuses them to build the `dpf` array. -/
structure DataArray where
  nChannel : ℕ
  nWavelength : ℕ
  nTime : ℕ
  wavelengthCoord : ℕ → ℚ
  val : ℕ → ℕ → ℕ → ℚ

/-- A labelled 2-d array over dims (channel, wavelength): the result of reducing
a `DataArray` over the time dimension. -/
structure DataArrayCW where
  nChannel : ℕ
  nWavelength : ℕ
  wavelengthCoord : ℕ → ℚ
  val : ℕ → ℕ → ℚ

/-- A labelled 1-d array over the wavelength dim, as built by
`xr.DataArray([6, 6], dims="wavelength", coords=...)`. -/
structure WavelengthArray where
  nWavelength : ℕ
  coord : ℕ → ℚ
  val : ℕ → ℚ

/-- Stimulus metadata (`elements[0].stim`, a pandas DataFrame): rows of
(onset, duration, value, trial type). -/
structure Stim where
  rows : List (ℚ × ℚ × ℚ × String)

/-- Probe geometry (`elements[0].geo3d`): labelled 3-d positions. -/
structure Geo where
  points : List (String × (ℚ × ℚ × ℚ))

/-- One element of the list returned by `cedalion.io.read_snirf`. -/
structure Element where
  data : List DataArray
  stim : Stim
  geo3d : Geo

/-- Errors that Python exceptions are modelled by. -/
inductive Err where
  | readFailure (msg : String)
  | indexOutOfRange
  | shapeMismatch
  | beerLambertFailure (msg : String)
deriving DecidableEq

/-- A value of an `xr.Dataset` data variable. -/
inductive Var where
  | array (a : DataArray)
  | geo (g : Geo)

/-- The per-subject labelled dataset: `data_vars` is the ordered dict of data
variables, `attrs` the attribute dict, `coords` the extra scalar coordinates. -/
structure Dataset where
  data_vars : List (String × Var)
  attrs : List (String × Stim)
  coords : List (String × String)

/-- Externally visible effects of the script.  The script itself only ever
emits the first three kinds; writes and network accesses are in the vocabulary
so that the frame property is expressible. -/
inductive Effect where
  | scanDir (dir pattern : String)
  | printLine (s : String)
  | readFile (path : String)
  | writeFile (path : String)
  | network (host : String)
deriving DecidableEq

/-- Model of `cedalion.io.read_snirf`, uninterpreted: maps a path to a list of
elements or an error. -/
def Reader : Type := String → Except Err (List Element)

/-- Model of `cedalion.nirs.beer_lambert`, uninterpreted: amp, geometry and dpf
to a concentration array or an error. -/
def BeerLambert : Type := DataArray → Geo → WavelengthArray → Except Err DataArray

/-- Mean over the time dimension, per channel and wavelength: the script's
`amp.mean("time")`. -/
def DataArray.meanTime (a : DataArray) : DataArrayCW :=
  { nChannel := a.nChannel
    nWavelength := a.nWavelength
    wavelengthCoord := a.wavelengthCoord
    val := fun c w => (∑ t ∈ Finset.range a.nTime, a.val c w t) / (a.nTime : ℚ) }

/-- Broadcast division `amp / amp.mean("time")` of a (channel, wavelength, time)
array by a (channel, wavelength) array. -/
def DataArray.divCW (a : DataArray) (b : DataArrayCW) : DataArray :=
  { a with val := fun c w t => a.val c w t / b.val c w }

/-- Elementwise map over a `DataArray` (models `np.log` and unary minus). -/
def DataArray.mapElt (f : ℚ → ℚ) (a : DataArray) : DataArray :=
  { a with val := fun c w t => f (a.val c w t) }

/-- The optical-density expression of the script:
`- np.log( amp / amp.mean("time") )`. -/
def odArray (logf : ℚ → ℚ) (amp : DataArray) : DataArray :=
  ((amp.divCW amp.meanTime).mapElt logf).mapElt (fun x => -x)

/-- Construction of a wavelength-dimension `xr.DataArray` from a value list,
taking its wavelength coordinate from `src` (the script's `dpf` line): fails
with a shape mismatch when the value list does not match the length of the
coordinate taken from `src`. -/
def mkWavelengthArray (vals : List ℚ) (src : DataArray) : Except Err WavelengthArray :=
  if vals.length = src.nWavelength then
    .ok { nWavelength := src.nWavelength
          coord := src.wavelengthCoord
          val := fun i => vals.getD i 0 }
  else .error Err.shapeMismatch

/-- The body of the per-subject loop, after the `print`: read the file, take
`elements[0]` and `.data[0]` (IndexError when empty), build `dpf`, call
Beer-Lambert, and assemble the dataset. -/
def processSubject (reader : Reader) (logf : ℚ → ℚ) (bl : BeerLambert)
    (subject fname : String) : Except Err Dataset := do
  let elements ← reader fname
  match elements with
  | [] => .error Err.indexOutOfRange
  | el :: _ =>
    match el.data with
    | [] => .error Err.indexOutOfRange
    | amp :: _ =>
      let stim := el.stim
      let geo3d := el.geo3d
      let dpf ← mkWavelengthArray [6, 6] amp
      let conc ← bl amp geo3d dpf
      .ok { data_vars := [("amp", Var.array amp),
                          ("od", Var.array (odArray logf amp)),
                          ("geo", Var.geo geo3d),
                          ("conc", Var.array conc)]
            attrs := [("stim", stim)]
            coords := [("subject", subject)] }

/-- The `for subject, fname in zip(subjects, fnames)` loop: prints the file
name, attempts to read, and either stores the dataset and continues or aborts
with the uncaught exception.  Returns the accumulated dictionary (as an
insertion-ordered association list), the emitted effects, and the uncaught
error, if any. -/
def runLoop (reader : Reader) (logf : ℚ → ℚ) (bl : BeerLambert) :
    List (String × String) → List (String × Dataset) × List Effect × Option Err
  | [] => ([], [], none)
  | (subject, fname) :: rest =>
    match processSubject reader logf bl subject fname with
    | .error e => ([], [Effect.printLine fname, Effect.readFile fname], some e)
    | .ok ds =>
      let r := runLoop reader logf bl rest
      ((subject, ds) :: r.1, Effect.printLine fname :: Effect.readFile fname :: r.2.1, r.2.2)

/-- The fixed relative input directory. -/
def vfcDir : String := "../fnirs_data/vfc_high_density/"

/-- The glob pattern handed to `rglob`. -/
def snirfPattern : String := "*.snirf"

/-- The file extension the glob pattern matches. -/
def snirfExt : String := ".snirf"

/-- Directory scan `vfc.rglob("*.snirf")`: the files below the fixed directory
whose name ends in `.snirf`.  Paths are compared as their character lists. -/
def scanSnirf (fs : List String) : List String :=
  fs.filter (fun p => vfcDir.data.isPrefixOf p.data && snirfExt.data.isSuffixOf p.data)

/-- Lexicographic comparison of character lists, by code point. -/
def lexLeCh : List Char → List Char → Bool
  | [], _ => true
  | _ :: _, [] => false
  | a :: as, b :: bs => if a < b then true else if a = b then lexLeCh as bs else false

/-- Lexicographic order on paths, as Python compares strings: by the code
points of their characters. -/
def strLeRel (a b : String) : Prop := lexLeCh a.data b.data = true

instance : DecidableRel strLeRel := fun a b =>
  inferInstanceAs (Decidable (lexLeCh a.data b.data = true))

instance : IsTotal String strLeRel := by
  constructor
  intro a b
  show lexLeCh a.data b.data = true ∨ lexLeCh b.data a.data = true
  generalize a.data = as
  generalize b.data = bs
  induction as generalizing bs with
  | nil => exact Or.inl rfl
  | cons x xs ih =>
    cases bs with
    | nil => exact Or.inr rfl
    | cons y ys =>
      rcases lt_trichotomy x y with h | h | h
      · exact Or.inl (by simp [lexLeCh, h])
      · subst h
        rcases ih ys with h2 | h2
        · exact Or.inl (by simp [lexLeCh, h2])
        · exact Or.inr (by simp [lexLeCh, h2])
      · exact Or.inr (by simp [lexLeCh, h])

instance : IsTrans String strLeRel := by
  constructor
  intro a b c hab hbc
  show lexLeCh a.data c.data = true
  rw [strLeRel] at hab hbc
  revert hab hbc
  generalize a.data = as
  generalize b.data = bs
  generalize c.data = cs
  intro hab hbc
  induction as generalizing bs cs with
  | nil => rfl
  | cons x xs ih =>
    cases bs with
    | nil => simp [lexLeCh] at hab
    | cons y ys =>
      cases cs with
      | nil => simp [lexLeCh] at hbc
      | cons z zs =>
        have hsame : ∀ (u : Char) (us vs : List Char),
            lexLeCh (u :: us) (u :: vs) = lexLeCh us vs := by
          intro u us vs
          simp [lexLeCh]
        by_cases hxy : x < y
        · by_cases hyz : y < z
          · simp [lexLeCh, lt_trans hxy hyz]
          · by_cases hyz2 : y = z
            · subst hyz2
              simp [lexLeCh, hxy]
            · simp [lexLeCh, hyz, hyz2] at hbc
        · by_cases hxy2 : x = y
          · subst hxy2
            rw [hsame] at hab
            by_cases hxz : x < z
            · simp [lexLeCh, hxz]
            · by_cases hxz2 : x = z
              · subst hxz2
                rw [hsame] at hbc
                rw [hsame]
                exact ih ys zs hab hbc
              · simp [lexLeCh, hxz, hxz2] at hbc
          · simp [lexLeCh, hxy, hxy2] at hab

/-- Zero-padded decimal of width two, as produced by the format spec `02d`. -/
def format02d (i : ℕ) : String :=
  if i < 10 then "0" ++ toString i else toString i

/-- A subject label `f"sub-{i:02d}"`. -/
def subjLabel (i : ℕ) : String := "sub-" ++ format02d i

/-- The result of running the script: the statically computed file list and
subject labels, the final `data` dictionary, the effect trace, and the uncaught
error, if any. -/
structure RunResult where
  fnames : List String
  subjects : List String
  data : List (String × Dataset)
  trace : List Effect
  err : Option Err

/-- The module body: scan the directory, compute
`fnames = sorted(...)[::-1]` and `subjects`, then run the loop.  `argv` and
`env` model the process command line and environment, which the script never
reads. -/
def run (fs : List String) (reader : Reader) (logf : ℚ → ℚ) (bl : BeerLambert)
    (argv : List String) (env : String → Option String) : RunResult :=
  let files := scanSnirf fs
  let fnames := (List.insertionSort strLeRel files).reverse
  let subjects := (List.range fnames.length).map (fun i => subjLabel (i + 1))
  let r := runLoop reader logf bl (subjects.zip fnames)
  { fnames := fnames
    subjects := subjects
    data := r.1
    trace := Effect.scanDir vfcDir snirfPattern :: r.2.1
    err := r.2.2 }

/-- The six sklearn names imported at the top of the script, as uninterpreted
values. -/
structure SklearnImports where
  standardScaler : List ℚ → List ℚ
  labelEncoder : List String → List ℕ
  linearDiscriminantAnalysis : List (List ℚ) → List ℕ → List ℕ
  trainTestSplit : List ℚ → ℚ → List ℚ × List ℚ
  crossValidate : (List ℚ → ℕ) → List ℚ → List ℚ
  accuracyScore : List ℕ → List ℕ → ℚ

/-- The module body with the sklearn imports in scope: the imports bind names
that the rest of the script never mentions. -/
def runWithSklearn (sk : SklearnImports) (fs : List String) (reader : Reader)
    (logf : ℚ → ℚ) (bl : BeerLambert) (argv : List String)
    (env : String → Option String) : RunResult :=
  run fs reader logf bl argv env

/-- The effects emitted by one full pass of the loop over its pair list: for
each pair, the console print of the file name followed by the file read. -/
def loopTrace : List (String × String) → List Effect
  | [] => []
  | (_, fname) :: rest => Effect.printLine fname :: Effect.readFile fname :: loopTrace rest

/-- The paths of the file-read events of a trace, in order. -/
def readPaths (tr : List Effect) : List String :=
  tr.filterMap (fun e => match e with
    | Effect.readFile p => some p
    | _ => none)

/-- Whether an effect is a directory scan. -/
def isScan : Effect → Bool
  | Effect.scanDir _ _ => true
  | _ => false

/-! Concrete fixtures used to witness the theorems on sample inputs. -/

/-- A filesystem holding one matching file. -/
def fs₀ : List String := ["../fnirs_data/vfc_high_density/a.snirf"]

/-- A filesystem holding no matching file. -/
def fsNone : List String := ["notes.txt", "../fnirs_data/vfc_high_density/readme.md"]

/-- A sample amplitude array: one channel, two wavelengths, one time sample. -/
def amp₀ : DataArray :=
  { nChannel := 1, nWavelength := 2, nTime := 1
    wavelengthCoord := fun _ => 760
    val := fun _ _ _ => 1 }

/-- An empty geometry. -/
def geo₀ : Geo := ⟨[]⟩

/-- An empty stimulus table. -/
def stim₀ : Stim := ⟨[]⟩

/-- A sample snirf element. -/
def el₀ : Element := { data := [amp₀], stim := stim₀, geo3d := geo₀ }

/-- A reader that succeeds on every path with the sample element. -/
def reader₀ : Reader := fun _ => Except.ok [el₀]

/-- A reader that fails on every path. -/
def readerBad : Reader := fun _ => Except.error (Err.readFailure "io")

/-- A sample elementwise logarithm. -/
def logf₀ : ℚ → ℚ := fun _ => 0

/-- A sample Beer-Lambert routine returning its amplitude argument. -/
def bl₀ : BeerLambert := fun a _ _ => Except.ok a

/-- An empty process environment. -/
def env₀ : String → Option String := fun _ => none

/-- The dataset the sample run stores for the single subject. -/
def ds₀ : Dataset :=
  { data_vars := [("amp", Var.array amp₀),
                  ("od", Var.array (odArray logf₀ amp₀)),
                  ("geo", Var.geo geo₀),
                  ("conc", Var.array amp₀)]
    attrs := [("stim", stim₀)]
    coords := [("subject", "sub-01")] }

/-- A filesystem holding two matching files. -/
def fsTwo : List String :=
  ["../fnirs_data/vfc_high_density/s1.snirf", "../fnirs_data/vfc_high_density/s2.snirf"]

/-! Helper lemmas shared by the claim theorems. -/

theorem lookup_mem {α β : Type} [BEq α] [LawfulBEq α] {l : List (α × β)} {a : α} {b : β}
    (h : l.lookup a = some b) : (a, b) ∈ l := by
  induction l with
  | nil => simp [List.lookup] at h
  | cons p t ih =>
    obtain ⟨k, v⟩ := p
    by_cases hk : a = k
    · subst hk
      simp [List.lookup] at h
      simp [h]
    · have hk2 : (a == k) = false := beq_false_of_ne hk
      simp [List.lookup, hk2] at h
      exact List.mem_cons_of_mem _ (ih h)

theorem processSubject_ok {reader : Reader} {logf : ℚ → ℚ} {bl : BeerLambert}
    {subject fname : String} {ds : Dataset}
    (h : processSubject reader logf bl subject fname = Except.ok ds) :
    ∃ el elrest amp arest dpf conc,
      reader fname = Except.ok (el :: elrest) ∧
      el.data = amp :: arest ∧
      mkWavelengthArray [6, 6] amp = Except.ok dpf ∧
      bl amp el.geo3d dpf = Except.ok conc ∧
      ds = { data_vars := [("amp", Var.array amp),
                          ("od", Var.array (odArray logf amp)),
                          ("geo", Var.geo el.geo3d),
                          ("conc", Var.array conc)]
             attrs := [("stim", el.stim)]
             coords := [("subject", subject)] } := by
  unfold processSubject at h
  simp only [Bind.bind, Except.bind] at h
  split at h
  · simp at h
  rename_i elements hr
  split at h
  · simp at h
  rename_i el elrest
  split at h
  · simp at h
  rename_i amp arest hd
  split at h
  · simp at h
  rename_i dpf hw
  split at h
  · simp at h
  rename_i conc hb
  simp only [Except.ok.injEq] at h
  exact ⟨el, elrest, amp, arest, dpf, conc, hr, hd, hw, hb, h.symm⟩

theorem runLoop_mem {reader : Reader} {logf : ℚ → ℚ} {bl : BeerLambert} :
    ∀ (pairs : List (String × String)) {s : String} {ds : Dataset},
      (s, ds) ∈ (runLoop reader logf bl pairs).1 →
      ∃ f, (s, f) ∈ pairs ∧ processSubject reader logf bl s f = Except.ok ds := by
  intro pairs
  induction pairs with
  | nil =>
    intro s ds h
    simp [runLoop] at h
  | cons p rest ih =>
    intro s ds h
    obtain ⟨subject, fname⟩ := p
    cases hp : processSubject reader logf bl subject fname with
    | error e =>
      rw [runLoop, hp] at h
      simp at h
    | ok d =>
      rw [runLoop, hp] at h
      simp only [List.mem_cons, Prod.mk.injEq] at h
      rcases h with ⟨hs, hds⟩ | hmem
      · subst hs
        subst hds
        exact ⟨fname, List.mem_cons_self _ _, hp⟩
      · obtain ⟨f, hf, hps⟩ := ih hmem
        exact ⟨f, List.mem_cons_of_mem _ hf, hps⟩

theorem run_data_eq (fs : List String) (reader : Reader) (logf : ℚ → ℚ)
    (bl : BeerLambert) (argv : List String) (env : String → Option String) :
    (run fs reader logf bl argv env).data =
      (runLoop reader logf bl
        ((run fs reader logf bl argv env).subjects.zip
          (run fs reader logf bl argv env).fnames)).1 := rfl

theorem run_mem_shape {fs : List String} {reader : Reader} {logf : ℚ → ℚ}
    {bl : BeerLambert} {argv : List String} {env : String → Option String}
    {s : String} {ds : Dataset}
    (h : ((run fs reader logf bl argv env).data).lookup s = some ds) :
    ∃ el elrest amp arest dpf conc fname,
      reader fname = Except.ok (el :: elrest) ∧
      el.data = amp :: arest ∧
      mkWavelengthArray [6, 6] amp = Except.ok dpf ∧
      bl amp el.geo3d dpf = Except.ok conc ∧
      ds = { data_vars := [("amp", Var.array amp),
                          ("od", Var.array (odArray logf amp)),
                          ("geo", Var.geo el.geo3d),
                          ("conc", Var.array conc)]
             attrs := [("stim", el.stim)]
             coords := [("subject", s)] } := by
  have hmem := lookup_mem h
  rw [run_data_eq] at hmem
  obtain ⟨f, _, hps⟩ := runLoop_mem _ hmem
  obtain ⟨el, elrest, amp, arest, dpf, conc, h1, h2, h3, h4, h5⟩ := processSubject_ok hps
  exact ⟨el, elrest, amp, arest, dpf, conc, f, h1, h2, h3, h4, h5⟩

/-- C1: for every loaded subject recording, the derived optical-density
variable `od` equals, per channel, wavelength and time sample, the negative
natural logarithm of the raw amplitude divided by that channel's mean amplitude
over the time dimension, `od = -log(amp / mean_time(amp))`, and it has the same
dims as the amplitude. -/
theorem od_is_neg_log_ratio_to_time_mean
    (fs : List String) (reader : Reader) (logf : ℚ → ℚ) (bl : BeerLambert)
    (argv : List String) (env : String → Option String)
    (s : String) (ds : Dataset) (a o : DataArray)
    (hds : ((run fs reader logf bl argv env).data).lookup s = some ds)
    (ha : ds.data_vars.lookup "amp" = some (Var.array a))
    (ho : ds.data_vars.lookup "od" = some (Var.array o)) :
    o.nChannel = a.nChannel ∧ o.nWavelength = a.nWavelength ∧ o.nTime = a.nTime ∧
    ∀ c w t, o.val c w t =
      -(logf (a.val c w t /
        ((∑ i ∈ Finset.range a.nTime, a.val c w i) / (a.nTime : ℚ)))) := by
  obtain ⟨el, elrest, amp, arest, dpf, conc, f, hr, hd, hw, hb, hshape⟩ := run_mem_shape hds
  subst hshape
  simp [List.lookup] at ha ho
  subst ha
  subst ho
  refine ⟨rfl, rfl, rfl, ?_⟩
  intro c w t
  simp [odArray, DataArray.mapElt, DataArray.divCW, DataArray.meanTime]

/-- Witness for C1: the one-file sample run, evaluated concretely. -/
theorem od_is_neg_log_ratio_to_time_mean_witness :
    ((run fs₀ reader₀ logf₀ bl₀ [] env₀).data).lookup "sub-01" = some ds₀ ∧
    ds₀.data_vars.lookup "amp" = some (Var.array amp₀) ∧
    ds₀.data_vars.lookup "od" = some (Var.array (odArray logf₀ amp₀)) ∧
    (odArray logf₀ amp₀).val 0 0 0 =
      -(logf₀ (amp₀.val 0 0 0 /
        ((∑ i ∈ Finset.range amp₀.nTime, amp₀.val 0 0 i) / (amp₀.nTime : ℚ)))) :=
  ⟨rfl, rfl, rfl,
    (od_is_neg_log_ratio_to_time_mean fs₀ reader₀ logf₀ bl₀ [] env₀ "sub-01" ds₀ amp₀
      (odArray logf₀ amp₀) rfl rfl rfl).2.2.2 0 0 0⟩

/-- C2: for every subject processed, the entry stored under that subject's
label is a dataset whose data variables are exactly `amp`, `od`, `geo` and
`conc` in that order, `od` derived from `amp`, `conc` produced by the external
Beer-Lambert routine from `amp`, the geometry and the `dpf` array, with the
stimulus metadata as the sole attribute and the subject label as the sole
extra coordinate. -/
theorem dataset_bundle_exact
    (fs : List String) (reader : Reader) (logf : ℚ → ℚ) (bl : BeerLambert)
    (argv : List String) (env : String → Option String)
    (s : String) (ds : Dataset)
    (hds : ((run fs reader logf bl argv env).data).lookup s = some ds) :
    ∃ a g st c,
      ds.data_vars = [("amp", Var.array a),
                      ("od", Var.array (odArray logf a)),
                      ("geo", Var.geo g),
                      ("conc", Var.array c)] ∧
      (∃ dpf, mkWavelengthArray [6, 6] a = Except.ok dpf ∧
        bl a g dpf = Except.ok c) ∧
      ds.attrs = [("stim", st)] ∧
      ds.coords = [("subject", s)] := by
  obtain ⟨el, elrest, amp, arest, dpf, conc, f, hr, hd, hw, hb, hshape⟩ := run_mem_shape hds
  subst hshape
  exact ⟨amp, el.geo3d, el.stim, conc, rfl, ⟨dpf, hw, hb⟩, rfl, rfl⟩

/-- Witness for C2: the one-file sample run, evaluated concretely. -/
theorem dataset_bundle_exact_witness :
    ((run fs₀ reader₀ logf₀ bl₀ [] env₀).data).lookup "sub-01" = some ds₀ ∧
    ∃ a g st c,
      ds₀.data_vars = [("amp", Var.array a),
                       ("od", Var.array (odArray logf₀ a)),
                       ("geo", Var.geo g),
                       ("conc", Var.array c)] ∧
      (∃ dpf, mkWavelengthArray [6, 6] a = Except.ok dpf ∧
        bl₀ a g dpf = Except.ok c) ∧
      ds₀.attrs = [("stim", st)] ∧
      ds₀.coords = [("subject", "sub-01")] :=
  ⟨rfl, dataset_bundle_exact fs₀ reader₀ logf₀ bl₀ [] env₀ "sub-01" ds₀ rfl⟩

/-- C9: for every subject stored, the concentration was computed by the
Beer-Lambert routine from a differential path-length factor array that is
rebuilt from that subject's amplitude wavelength coordinate and holds the
constant 6 at every wavelength. -/
theorem dpf_constant_six
    (fs : List String) (reader : Reader) (logf : ℚ → ℚ) (bl : BeerLambert)
    (argv : List String) (env : String → Option String)
    (s : String) (ds : Dataset)
    (hds : ((run fs reader logf bl argv env).data).lookup s = some ds) :
    ∃ a g c dpf,
      ds.data_vars.lookup "amp" = some (Var.array a) ∧
      ds.data_vars.lookup "conc" = some (Var.array c) ∧
      mkWavelengthArray [6, 6] a = Except.ok dpf ∧
      bl a g dpf = Except.ok c ∧
      dpf.nWavelength = a.nWavelength ∧
      dpf.coord = a.wavelengthCoord ∧
      ∀ w, w < dpf.nWavelength → dpf.val w = 6 := by
  obtain ⟨el, elrest, amp, arest, dpf, conc, f, hr, hd, hw, hb, hshape⟩ := run_mem_shape hds
  subst hshape
  have hif := hw
  unfold mkWavelengthArray at hif
  split at hif
  · rename_i hlen
    simp only [Except.ok.injEq] at hif
    refine ⟨amp, el.geo3d, conc, dpf, by simp [List.lookup], by simp [List.lookup], hw, hb, ?_, ?_, ?_⟩
    · rw [← hif]
    · rw [← hif]
    · intro w hwlt
      rw [← hif] at hwlt ⊢
      simp only [List.length_cons, List.length_nil] at hlen
      have : w < 2 := by
        simpa using hwlt.trans_eq hlen.symm
      interval_cases w <;> rfl
  · simp at hif

/-- C6: the classifier, scaler and train/test-utility imports are never used:
with the sklearn bindings in scope the script computes exactly the same result
as with them removed, whatever those bindings are. -/
theorem sklearn_imports_unused
    (sk : SklearnImports) (fs : List String) (reader : Reader) (logf : ℚ → ℚ)
    (bl : BeerLambert) (argv : List String) (env : String → Option String) :
    runWithSklearn sk fs reader logf bl argv env = run fs reader logf bl argv env := rfl

/-- C10: when the directory scan finds no matching file, the loop body never
runs: the script finishes without error, with the empty mapping and only the
scan in its trace. -/
theorem empty_scan_empty_data
    (fs : List String) (reader : Reader) (logf : ℚ → ℚ) (bl : BeerLambert)
    (argv : List String) (env : String → Option String)
    (h : scanSnirf fs = []) :
    (run fs reader logf bl argv env).data = [] ∧
    (run fs reader logf bl argv env).err = none ∧
    (run fs reader logf bl argv env).trace = [Effect.scanDir vfcDir snirfPattern] := by
  refine ⟨?_, ?_, ?_⟩ <;> simp [run, h, runLoop]

/-- Witness for C10: a concrete filesystem with no matching file. -/
theorem empty_scan_empty_data_witness :
    scanSnirf fsNone = [] ∧
    (run fsNone reader₀ logf₀ bl₀ [] env₀).data = [] ∧
    (run fsNone reader₀ logf₀ bl₀ [] env₀).err = none ∧
    (run fsNone reader₀ logf₀ bl₀ [] env₀).trace = [Effect.scanDir vfcDir snirfPattern] :=
  ⟨rfl, empty_scan_empty_data fsNone reader₀ logf₀ bl₀ [] env₀ rfl⟩

theorem runLoop_err_propagates {reader : Reader} {logf : ℚ → ℚ} {bl : BeerLambert}
    (e : Err) (s f : String) (post : List (String × String)) :
    ∀ pre : List (String × String),
      (∀ q ∈ pre, ∃ d, processSubject reader logf bl q.1 q.2 = Except.ok d) →
      processSubject reader logf bl s f = Except.error e →
      (runLoop reader logf bl (pre ++ (s, f) :: post)).2.2 = some e := by
  intro pre
  induction pre with
  | nil =>
    intro _ hfail
    simp only [List.nil_append]
    rw [runLoop, hfail]
  | cons q rest ih =>
    intro hpre hfail
    obtain ⟨qs, qf⟩ := q
    obtain ⟨d, hd⟩ := hpre (qs, qf) (List.mem_cons_self _ _)
    simp only [List.cons_append]
    rw [runLoop, hd]
    exact ih (fun q hq => hpre q (List.mem_cons_of_mem _ hq)) hfail

/-- C5: an exception raised by the loop body for some subject — after all
earlier subjects succeeded — propagates out of the script unchanged: nothing
catches or transforms it. -/
theorem loop_errors_propagate_unhandled
    (fs : List String) (reader : Reader) (logf : ℚ → ℚ) (bl : BeerLambert)
    (argv : List String) (env : String → Option String)
    (pre post : List (String × String)) (s f : String) (e : Err)
    (hsplit : (run fs reader logf bl argv env).subjects.zip
        (run fs reader logf bl argv env).fnames = pre ++ (s, f) :: post)
    (hpre : ∀ q ∈ pre, ∃ d, processSubject reader logf bl q.1 q.2 = Except.ok d)
    (hfail : processSubject reader logf bl s f = Except.error e) :
    (run fs reader logf bl argv env).err = some e := by
  have herr : (run fs reader logf bl argv env).err =
      (runLoop reader logf bl ((run fs reader logf bl argv env).subjects.zip
        (run fs reader logf bl argv env).fnames)).2.2 := rfl
  rw [herr, hsplit]
  exact runLoop_err_propagates e s f post pre hpre hfail

/-- Witness for C5: a reader that fails on the single input file; the script
ends with exactly that error. -/
theorem loop_errors_propagate_unhandled_witness :
    processSubject readerBad logf₀ bl₀ "sub-01" "../fnirs_data/vfc_high_density/a.snirf"
      = Except.error (Err.readFailure "io") ∧
    (run fs₀ readerBad logf₀ bl₀ [] env₀).err = some (Err.readFailure "io") :=
  ⟨rfl, loop_errors_propagate_unhandled fs₀ readerBad logf₀ bl₀ [] env₀ [] []
    "sub-01" "../fnirs_data/vfc_high_density/a.snirf" (Err.readFailure "io") rfl
    (fun q hq => absurd hq (List.not_mem_nil q)) rfl⟩

theorem runLoop_trace_kinds {reader : Reader} {logf : ℚ → ℚ} {bl : BeerLambert} :
    ∀ (pairs : List (String × String)) (e : Effect),
      e ∈ (runLoop reader logf bl pairs).2.1 →
      (∃ p, e = Effect.printLine p) ∨ (∃ p, e = Effect.readFile p) := by
  intro pairs
  induction pairs with
  | nil =>
    intro e he
    simp [runLoop] at he
  | cons q rest ih =>
    intro e he
    obtain ⟨qs, qf⟩ := q
    cases hp : processSubject reader logf bl qs qf with
    | error err =>
      rw [runLoop, hp] at he
      simp only [List.mem_cons, List.not_mem_nil, or_false] at he
      rcases he with he | he
      · exact Or.inl ⟨qf, he⟩
      · exact Or.inr ⟨qf, he⟩
    | ok d =>
      rw [runLoop, hp] at he
      simp only [List.mem_cons] at he
      rcases he with he | he | he
      · exact Or.inl ⟨qf, he⟩
      · exact Or.inr ⟨qf, he⟩
      · exact ih e he

/-- C7: every externally visible effect of the script is a directory scan, a
console print, or an input-file read: the script never writes a file and never
touches the network, and its mapping is returned only in memory. -/
theorem effects_only_scan_print_read
    (fs : List String) (reader : Reader) (logf : ℚ → ℚ) (bl : BeerLambert)
    (argv : List String) (env : String → Option String) :
    ∀ e ∈ (run fs reader logf bl argv env).trace,
      (∃ d q, e = Effect.scanDir d q) ∨ (∃ p, e = Effect.printLine p) ∨
      (∃ p, e = Effect.readFile p) := by
  intro e he
  have htr : (run fs reader logf bl argv env).trace =
      Effect.scanDir vfcDir snirfPattern ::
        (runLoop reader logf bl ((run fs reader logf bl argv env).subjects.zip
          (run fs reader logf bl argv env).fnames)).2.1 := rfl
  rw [htr] at he
  rcases List.mem_cons.mp he with h | h
  · exact Or.inl ⟨vfcDir, snirfPattern, h⟩
  · rcases runLoop_trace_kinds _ e h with h2 | h2
    · exact Or.inr (Or.inl h2)
    · exact Or.inr (Or.inr h2)

/-- Witness for C7: the file-read effect of the one-file sample run is one of
the three permitted kinds. -/
theorem effects_only_scan_print_read_witness :
    Effect.readFile "../fnirs_data/vfc_high_density/a.snirf"
      ∈ (run fs₀ reader₀ logf₀ bl₀ [] env₀).trace ∧
    ((∃ d q, Effect.readFile "../fnirs_data/vfc_high_density/a.snirf" = Effect.scanDir d q) ∨
      (∃ p, Effect.readFile "../fnirs_data/vfc_high_density/a.snirf" = Effect.printLine p) ∨
      (∃ p, Effect.readFile "../fnirs_data/vfc_high_density/a.snirf" = Effect.readFile p)) :=
  ⟨by decide,
    effects_only_scan_print_read fs₀ reader₀ logf₀ bl₀ [] env₀
      (Effect.readFile "../fnirs_data/vfc_high_density/a.snirf") (by decide)⟩

theorem runLoop_read_paths {reader : Reader} {logf : ℚ → ℚ} {bl : BeerLambert} :
    ∀ (pairs : List (String × String)) (p : String),
      Effect.readFile p ∈ (runLoop reader logf bl pairs).2.1 →
      p ∈ pairs.map Prod.snd := by
  intro pairs
  induction pairs with
  | nil =>
    intro p hp
    simp [runLoop] at hp
  | cons q rest ih =>
    intro p hp
    obtain ⟨qs, qf⟩ := q
    cases hps : processSubject reader logf bl qs qf with
    | error e =>
      rw [runLoop, hps] at hp
      simp only [List.mem_cons, List.not_mem_nil, or_false] at hp
      rcases hp with hp | hp
      · exact absurd hp (by simp)
      · simp only [Effect.readFile.injEq] at hp
        simp [hp]
    | ok d =>
      rw [runLoop, hps] at hp
      simp only [List.mem_cons] at hp
      rcases hp with hp | hp | hp
      · exact absurd hp (by simp)
      · simp only [Effect.readFile.injEq] at hp
        simp [hp]
      · exact List.mem_cons_of_mem _ (ih p hp)

/-- C4: for any filesystem, every file the script reads lies in the filesystem,
below the fixed relative directory, with the `.snirf` extension; and the result
is unchanged under any command line and environment, which the script never
consults. -/
theorem reads_only_snirf_under_fixed_dir
    (fs : List String) (reader : Reader) (logf : ℚ → ℚ) (bl : BeerLambert)
    (argv argv2 : List String) (env env2 : String → Option String) :
    (∀ p, Effect.readFile p ∈ (run fs reader logf bl argv env).trace →
      p ∈ fs ∧ vfcDir.data.isPrefixOf p.data = true ∧
        snirfExt.data.isSuffixOf p.data = true) ∧
    run fs reader logf bl argv env = run fs reader logf bl argv2 env2 := by
  constructor
  · intro p hp
    have htr : (run fs reader logf bl argv env).trace =
        Effect.scanDir vfcDir snirfPattern ::
          (runLoop reader logf bl ((run fs reader logf bl argv env).subjects.zip
            (run fs reader logf bl argv env).fnames)).2.1 := rfl
    rw [htr] at hp
    rcases List.mem_cons.mp hp with h | h
    · exact absurd h (by simp)
    · have hsnd := runLoop_read_paths _ p h
      obtain ⟨pair, hpair, hpsnd⟩ := List.mem_map.mp hsnd
      have hzip := List.of_mem_zip hpair
      have hfn : p ∈ (run fs reader logf bl argv env).fnames := hpsnd ▸ hzip.2
      have hfiles : p ∈ scanSnirf fs := by
        have h1 : (run fs reader logf bl argv env).fnames =
            (List.insertionSort strLeRel (scanSnirf fs)).reverse := rfl
        rw [h1, List.mem_reverse, List.mem_insertionSort] at hfn
        exact hfn
      rw [scanSnirf, List.mem_filter] at hfiles
      obtain ⟨hmem, hpred⟩ := hfiles
      rw [Bool.and_eq_true] at hpred
      exact ⟨hmem, hpred.1, hpred.2⟩
  · rfl

/-- Witness for C4: the one-file sample run reads its single matching file, and
a different command line and environment leave the result unchanged. -/
theorem reads_only_snirf_under_fixed_dir_witness :
    Effect.readFile "../fnirs_data/vfc_high_density/a.snirf"
      ∈ (run fs₀ reader₀ logf₀ bl₀ [] env₀).trace ∧
    ("../fnirs_data/vfc_high_density/a.snirf" ∈ fs₀ ∧
      vfcDir.data.isPrefixOf ("../fnirs_data/vfc_high_density/a.snirf" : String).data = true ∧
      snirfExt.data.isSuffixOf ("../fnirs_data/vfc_high_density/a.snirf" : String).data = true) ∧
    run fs₀ reader₀ logf₀ bl₀ [] env₀ =
      run fs₀ reader₀ logf₀ bl₀ ["--flag"] (fun v => some v) :=
  ⟨by decide,
    (reads_only_snirf_under_fixed_dir fs₀ reader₀ logf₀ bl₀ [] ["--flag"] env₀
      (fun v => some v)).1 "../fnirs_data/vfc_high_density/a.snirf" (by decide),
    (reads_only_snirf_under_fixed_dir fs₀ reader₀ logf₀ bl₀ [] ["--flag"] env₀
      (fun v => some v)).2⟩

theorem runLoop_ok_facts {reader : Reader} {logf : ℚ → ℚ} {bl : BeerLambert} :
    ∀ pairs : List (String × String),
      (runLoop reader logf bl pairs).2.2 = none →
      (runLoop reader logf bl pairs).2.1 = loopTrace pairs ∧
      (runLoop reader logf bl pairs).1.map Prod.fst = pairs.map Prod.fst := by
  intro pairs
  induction pairs with
  | nil =>
    intro _
    exact ⟨rfl, rfl⟩
  | cons q rest ih =>
    intro h
    obtain ⟨qs, qf⟩ := q
    cases hps : processSubject reader logf bl qs qf with
    | error e =>
      rw [runLoop, hps] at h
      simp at h
    | ok d =>
      rw [runLoop, hps] at h
      obtain ⟨h1, h2⟩ := ih h
      rw [runLoop, hps]
      constructor
      · show Effect.printLine qf :: Effect.readFile qf :: _ = loopTrace ((qs, qf) :: rest)
        rw [loopTrace, h1]
      · show qs :: (runLoop reader logf bl rest).1.map Prod.fst = _
        rw [h2]
        rfl

theorem readPaths_loopTrace :
    ∀ pairs : List (String × String), readPaths (loopTrace pairs) = pairs.map Prod.snd := by
  intro pairs
  induction pairs with
  | nil => rfl
  | cons q rest ih =>
    obtain ⟨qs, qf⟩ := q
    simp only [loopTrace, readPaths, List.filterMap_cons] at ih ⊢
    rw [ih]
    rfl

theorem loopTrace_no_scan :
    ∀ pairs : List (String × String), (loopTrace pairs).filter isScan = [] := by
  intro pairs
  induction pairs with
  | nil => rfl
  | cons q rest ih =>
    obtain ⟨qs, qf⟩ := q
    simp only [loopTrace, List.filter_cons]
    simpa [isScan] using ih

/-- C3: when the script completes, its execution decomposes into the stated
phases in order: one directory scan first, then for each (label, file) pair of
the statically computed lists — in sequence — the print and the read, with the
files read being exactly the scanned list, the scan never repeated, and every
loop iteration's result stored under its subject label in order. -/
theorem phases_ordered_static_list
    (fs : List String) (reader : Reader) (logf : ℚ → ℚ) (bl : BeerLambert)
    (argv : List String) (env : String → Option String)
    (h : (run fs reader logf bl argv env).err = none) :
    (run fs reader logf bl argv env).trace =
      Effect.scanDir vfcDir snirfPattern ::
        loopTrace ((run fs reader logf bl argv env).subjects.zip
          (run fs reader logf bl argv env).fnames) ∧
    readPaths (run fs reader logf bl argv env).trace =
      (run fs reader logf bl argv env).fnames ∧
    ((run fs reader logf bl argv env).trace.filter isScan).length = 1 ∧
    (run fs reader logf bl argv env).data.map Prod.fst =
      (run fs reader logf bl argv env).subjects := by
  have herr : (run fs reader logf bl argv env).err =
      (runLoop reader logf bl ((run fs reader logf bl argv env).subjects.zip
        (run fs reader logf bl argv env).fnames)).2.2 := rfl
  rw [herr] at h
  obtain ⟨h1, h2⟩ := runLoop_ok_facts _ h
  have htr : (run fs reader logf bl argv env).trace =
      Effect.scanDir vfcDir snirfPattern ::
        (runLoop reader logf bl ((run fs reader logf bl argv env).subjects.zip
          (run fs reader logf bl argv env).fnames)).2.1 := rfl
  have hlen : (run fs reader logf bl argv env).subjects.length =
      (run fs reader logf bl argv env).fnames.length := by
    show ((List.range (run fs reader logf bl argv env).fnames.length).map
      (fun i => subjLabel (i + 1))).length = _
    simp
  refine ⟨?_, ?_, ?_, ?_⟩
  · rw [htr, h1]
  · rw [htr, h1]
    show readPaths (loopTrace ((run fs reader logf bl argv env).subjects.zip
      (run fs reader logf bl argv env).fnames)) = _
    rw [readPaths_loopTrace]
    exact List.map_snd_zip _ _ hlen.ge
  · rw [htr, h1, List.filter_cons, loopTrace_no_scan]
    rfl
  · rw [run_data_eq, h2]
    exact List.map_fst_zip _ _ hlen.le

/-- Witness for C3: the one-file sample run completes; its trace and data have
the stated phase structure. -/
theorem phases_ordered_static_list_witness :
    (run fs₀ reader₀ logf₀ bl₀ [] env₀).err = none ∧
    ((run fs₀ reader₀ logf₀ bl₀ [] env₀).trace =
      Effect.scanDir vfcDir snirfPattern ::
        loopTrace ((run fs₀ reader₀ logf₀ bl₀ [] env₀).subjects.zip
          (run fs₀ reader₀ logf₀ bl₀ [] env₀).fnames) ∧
    readPaths (run fs₀ reader₀ logf₀ bl₀ [] env₀).trace =
      (run fs₀ reader₀ logf₀ bl₀ [] env₀).fnames ∧
    ((run fs₀ reader₀ logf₀ bl₀ [] env₀).trace.filter isScan).length = 1 ∧
    (run fs₀ reader₀ logf₀ bl₀ [] env₀).data.map Prod.fst =
      (run fs₀ reader₀ logf₀ bl₀ [] env₀).subjects) :=
  ⟨rfl, phases_ordered_static_list fs₀ reader₀ logf₀ bl₀ [] env₀ rfl⟩

theorem lexLeCh_refl : ∀ as : List Char, lexLeCh as as = true := by
  intro as
  induction as with
  | nil => rfl
  | cons a t ih => simp [lexLeCh, ih]

theorem strLeRel_refl (s : String) : strLeRel s s := lexLeCh_refl s.data

theorem sorted_le_getLast :
    ∀ {l : List String}, l.Sorted strLeRel → ∀ (h : l ≠ []) (x : String),
      x ∈ l → strLeRel x (l.getLast h) := by
  intro l
  induction l with
  | nil =>
    intro _ h
    exact absurd rfl h
  | cons a t ih =>
    intro hs h x hx
    cases t with
    | nil =>
      simp only [List.mem_singleton] at hx
      subst hx
      exact strLeRel_refl _
    | cons b t2 =>
      rw [List.getLast_cons (List.cons_ne_nil b t2)]
      rcases List.mem_cons.mp hx with hxa | hxt
      · subst hxa
        exact List.rel_of_sorted_cons hs _ (List.getLast_mem (List.cons_ne_nil b t2))
      · exact ih hs.of_cons (List.cons_ne_nil b t2) x hxt

theorem head?_zip {α β : Type} {a : List α} {b : List β} {x : α} {y : β}
    (ha : a.head? = some x) (hb : b.head? = some y) :
    (a.zip b).head? = some (x, y) := by
  cases a with
  | nil => simp at ha
  | cons a0 t =>
    cases b with
    | nil => simp at hb
    | cons b0 u =>
      simp only [List.head?_cons, Option.some.injEq] at ha hb
      subst ha
      subst hb
      rfl

theorem getLast?_zip {α β : Type} :
    ∀ (a : List α) (b : List β), a.length = b.length →
      ∀ {x : α} {y : β}, a.getLast? = some x → b.getLast? = some y →
      (a.zip b).getLast? = some (x, y) := by
  intro a
  induction a with
  | nil =>
    intro b h x y hx
    simp at hx
  | cons a0 t ih =>
    intro b h x y hx hy
    cases b with
    | nil => simp at h
    | cons b0 u =>
      cases t with
      | nil =>
        have hu : u = [] := by simpa using h
        subst hu
        simp only [List.getLast?_singleton, Option.some.injEq] at hx hy
        subst hx
        subst hy
        rfl
      | cons a1 t1 =>
        cases u with
        | nil => simp at h
        | cons b1 u1 =>
          have hzip : ((a0 :: a1 :: t1).zip (b0 :: b1 :: u1)).getLast?
              = ((a1 :: t1).zip (b1 :: u1)).getLast? := by
            rw [List.zip_cons_cons, List.zip_cons_cons, List.getLast?_cons_cons,
              ← List.zip_cons_cons]
          rw [hzip]
          rw [List.getLast?_cons_cons] at hx hy
          exact ih (b1 :: u1) (by simpa using h) hx hy

theorem labels_head (n : ℕ) (h : n ≠ 0) :
    ((List.range n).map (fun i => subjLabel (i + 1))).head? = some (subjLabel 1) := by
  obtain ⟨m, rfl⟩ := Nat.exists_eq_succ_of_ne_zero h
  rw [List.range_succ_eq_map]
  rfl

theorem labels_getLast (n : ℕ) (h : n ≠ 0) :
    ((List.range n).map (fun i => subjLabel (i + 1))).getLast? = some (subjLabel n) := by
  obtain ⟨m, rfl⟩ := Nat.exists_eq_succ_of_ne_zero h
  rw [List.range_succ, List.map_append, List.map_singleton, List.getLast?_concat]

/-- C8: for a directory holding `n` matching files, the subject labels are the
zero-padded strings `sub-01` … `sub-n` in index order, and since the sorted
file list is reversed before pairing, `sub-01` is paired with the
lexicographically greatest matching path and the last label with the least. -/
theorem labels_pair_reverse_sorted_files
    (fs : List String) (reader : Reader) (logf : ℚ → ℚ) (bl : BeerLambert)
    (argv : List String) (env : String → Option String) :
    subjLabel 1 = "sub-01" ∧
    (run fs reader logf bl argv env).subjects =
      (List.range (run fs reader logf bl argv env).fnames.length).map
        (fun i => subjLabel (i + 1)) ∧
    (run fs reader logf bl argv env).fnames.length = (scanSnirf fs).length ∧
    ((run fs reader logf bl argv env).fnames ≠ [] →
      ∃ pmax pmin,
        ((run fs reader logf bl argv env).subjects.zip
          (run fs reader logf bl argv env).fnames).head? = some (subjLabel 1, pmax) ∧
        pmax ∈ scanSnirf fs ∧ (∀ q ∈ scanSnirf fs, strLeRel q pmax) ∧
        ((run fs reader logf bl argv env).subjects.zip
          (run fs reader logf bl argv env).fnames).getLast?
            = some (subjLabel (run fs reader logf bl argv env).fnames.length, pmin) ∧
        pmin ∈ scanSnirf fs ∧ (∀ q ∈ scanSnirf fs, strLeRel pmin q)) := by
  refine ⟨rfl, rfl, ?_, ?_⟩
  · show ((List.insertionSort strLeRel (scanSnirf fs)).reverse).length = _
    rw [List.length_reverse, List.length_insertionSort]
  · intro hne
    have hsrt_ne : List.insertionSort strLeRel (scanSnirf fs) ≠ [] := by
      intro hnil
      apply hne
      show (List.insertionSort strLeRel (scanSnirf fs)).reverse = []
      rw [hnil]
      rfl
    obtain ⟨a, t, hst⟩ := List.exists_cons_of_ne_nil hsrt_ne
    have hs := List.sorted_insertionSort strLeRel (scanSnirf fs)
    rw [hst] at hs
    have hmem : ∀ q, q ∈ scanSnirf fs ↔ q ∈ a :: t := by
      intro q
      rw [← hst]
      exact (List.perm_insertionSort strLeRel (scanSnirf fs)).mem_iff.symm
    have hfn : (run fs reader logf bl argv env).fnames = (a :: t).reverse := by
      show (List.insertionSort strLeRel (scanSnirf fs)).reverse = _
      rw [hst]
    have hn0 : (run fs reader logf bl argv env).fnames.length ≠ 0 := by
      rw [hfn]
      simp
    have hfh : (run fs reader logf bl argv env).fnames.head?
        = some ((a :: t).getLast (List.cons_ne_nil a t)) := by
      rw [hfn, List.head?_reverse]
      exact List.getLast?_eq_getLast _ _
    have hfl : (run fs reader logf bl argv env).fnames.getLast? = some a := by
      rw [hfn, List.getLast?_reverse]
      rfl
    have hlen : (run fs reader logf bl argv env).subjects.length
        = (run fs reader logf bl argv env).fnames.length := by
      show ((List.range (run fs reader logf bl argv env).fnames.length).map
        (fun i => subjLabel (i + 1))).length = _
      simp
    refine ⟨(a :: t).getLast (List.cons_ne_nil a t), a, ?_, ?_, ?_, ?_, ?_, ?_⟩
    · exact head?_zip (labels_head _ hn0) hfh
    · exact (hmem _).mpr (List.getLast_mem _)
    · intro q hq
      exact sorted_le_getLast hs (List.cons_ne_nil a t) q ((hmem q).mp hq)
    · exact getLast?_zip _ _ hlen (labels_getLast _ hn0) hfl
    · exact (hmem a).mpr (List.mem_cons_self a t)
    · intro q hq
      rcases List.mem_cons.mp ((hmem q).mp hq) with hqa | hqt
      · subst hqa
        exact strLeRel_refl q
      · exact List.rel_of_sorted_cons hs q hqt

/-- Witness for C8: a concrete two-file run; label `sub-01` is paired with the
greater path and `sub-02` with the lesser. -/
theorem labels_pair_reverse_sorted_files_witness :
    (run fsTwo reader₀ logf₀ bl₀ [] env₀).fnames ≠ [] ∧
    ∃ pmax pmin,
      ((run fsTwo reader₀ logf₀ bl₀ [] env₀).subjects.zip
        (run fsTwo reader₀ logf₀ bl₀ [] env₀).fnames).head? = some (subjLabel 1, pmax) ∧
      pmax ∈ scanSnirf fsTwo ∧ (∀ q ∈ scanSnirf fsTwo, strLeRel q pmax) ∧
      ((run fsTwo reader₀ logf₀ bl₀ [] env₀).subjects.zip
        (run fsTwo reader₀ logf₀ bl₀ [] env₀).fnames).getLast?
          = some (subjLabel (run fsTwo reader₀ logf₀ bl₀ [] env₀).fnames.length, pmin) ∧
      pmin ∈ scanSnirf fsTwo ∧ (∀ q ∈ scanSnirf fsTwo, strLeRel pmin q) :=
  ⟨by decide,
    (labels_pair_reverse_sorted_files fsTwo reader₀ logf₀ bl₀ [] env₀).2.2.2 (by decide)⟩

/-- Witness for C9: the one-file sample run, evaluated concretely. -/
theorem dpf_constant_six_witness :
    ((run fs₀ reader₀ logf₀ bl₀ [] env₀).data).lookup "sub-01" = some ds₀ ∧
    ∃ a g c dpf,
      ds₀.data_vars.lookup "amp" = some (Var.array a) ∧
      ds₀.data_vars.lookup "conc" = some (Var.array c) ∧
      mkWavelengthArray [6, 6] a = Except.ok dpf ∧
      bl₀ a g dpf = Except.ok c ∧
      dpf.nWavelength = a.nWavelength ∧
      dpf.coord = a.wavelengthCoord ∧
      ∀ w, w < dpf.nWavelength → dpf.val w = 6 :=
  ⟨rfl, dpf_constant_six fs₀ reader₀ logf₀ bl₀ [] env₀ "sub-01" ds₀ rfl⟩

end FnirsScript
